import Mathlib

/-!
# Verification of the GOModel LLM gateway core

Shallow embedding of the request-plane engine of the GOModel repository:
the resilient upstream client (`internal/llmclient/client.go`), its circuit
breaker and backoff computation, the responses-API stream converters
(`internal/providers/responses_converter.go`,
`internal/providers/anthropic/anthropic.go`), the HTTP auth gate
(`internal/server/http.go` and the `AuthMiddleware` in the server package),
and the anthropic request conversion.

Modelling conventions:
* Go `int` counters and thresholds are `Int`; HTTP status codes are `Nat`.
* `time.Time` / `time.Duration` are abstract instants (`Int`, nanoseconds);
  a whole client call is modelled at one instant `now`.
* `float64` arithmetic in the backoff computation is modelled as exact
  rational arithmetic; `rand.Float64()` is an explicit parameter `r`.
* The upstream HTTP transport is a script: a function `Nat → Outcome`
  giving the outcome of the i-th upstream attempt.
* Observability hooks and circuit-breaker method calls are recorded as
  explicit event traces.
-/

namespace GOModel

/-! ## Circuit breaker (client.go, lines 612-728) -/

inductive CircuitState
  | circuitClosed
  | circuitOpen
  | circuitHalfOpen
deriving DecidableEq, Repr

structure CircuitBreaker where
  state : CircuitState
  failures : Int
  successes : Int
  failureThreshold : Int
  successThreshold : Int
  timeout : Int
  lastFailure : Int
  halfOpenAllowed : Bool
deriving DecidableEq, Repr

/-- `newCircuitBreaker` (client.go 633-641). -/
def newCircuitBreaker (failureThreshold successThreshold timeout : Int) : CircuitBreaker :=
  { state := .circuitClosed
    failures := 0
    successes := 0
    failureThreshold := failureThreshold
    successThreshold := successThreshold
    timeout := timeout
    lastFailure := 0
    halfOpenAllowed := true }

/-- `circuitBreaker.Allow` (client.go 646-674).  Returns the admission decision
together with the mutated breaker.  `now` is the current instant;
`time.Since(cb.lastFailure) > cb.timeout` is `now - cb.lastFailure > cb.timeout`. -/
def CircuitBreaker.allow (cb : CircuitBreaker) (now : Int) : Bool × CircuitBreaker :=
  match cb.state with
  | .circuitClosed => (true, cb)
  | .circuitOpen =>
      if now - cb.lastFailure > cb.timeout then
        -- transition to half-open, then fall through to the half-open handling
        let cb1 := { cb with state := .circuitHalfOpen, successes := 0, halfOpenAllowed := true }
        if cb1.halfOpenAllowed then (true, { cb1 with halfOpenAllowed := false })
        else (false, cb1)
      else
        (false, cb)
  | .circuitHalfOpen =>
      if cb.halfOpenAllowed then (true, { cb with halfOpenAllowed := false })
      else (false, cb)

/-- `circuitBreaker.RecordSuccess` (client.go 677-692). -/
def CircuitBreaker.recordSuccess (cb : CircuitBreaker) : CircuitBreaker :=
  match cb.state with
  | .circuitHalfOpen =>
      let cb1 := { cb with successes := cb.successes + 1, halfOpenAllowed := true }
      if cb1.successes ≥ cb1.successThreshold then
        { cb1 with state := .circuitClosed, failures := 0 }
      else cb1
  | .circuitClosed => { cb with failures := 0 }
  | .circuitOpen => cb

/-- `circuitBreaker.RecordFailure` (client.go 695-712). -/
def CircuitBreaker.recordFailure (cb : CircuitBreaker) (now : Int) : CircuitBreaker :=
  let cb1 := { cb with failures := cb.failures + 1, lastFailure := now }
  match cb1.state with
  | .circuitClosed =>
      if cb1.failures ≥ cb1.failureThreshold then { cb1 with state := .circuitOpen } else cb1
  | .circuitHalfOpen =>
      { cb1 with state := .circuitOpen, successes := 0, halfOpenAllowed := true }
  | .circuitOpen => cb1

/-! ## Backoff (client.go 586-601)

`calculateBackoff` works on `float64`; it is modelled here over `ℚ`.
`rand.Float64()` is the parameter `r` (a value in `[0,1)`). -/

structure BackoffConfig where
  initialBackoff : ℚ
  maxBackoff : ℚ
  backoffFactor : ℚ
  jitterFactor : ℚ
deriving DecidableEq, Repr

/-- `Client.calculateBackoff` (client.go 586-601). -/
def calculateBackoff (cfg : BackoffConfig) (attempt : Nat) (r : ℚ) : ℚ :=
  let backoff0 := cfg.initialBackoff * cfg.backoffFactor ^ (attempt - 1)
  let backoff1 := if backoff0 > cfg.maxBackoff then cfg.maxBackoff else backoff0
  if cfg.jitterFactor > 0 then
    let jitter := backoff1 * cfg.jitterFactor
    backoff1 - jitter + r * 2 * jitter
  else backoff1

/-! ## Gateway errors and client types (client.go, internal/core)

The `core` error package itself is not under `src/`; only the constructors
invoked from `client.go` are modelled, as an inductive carrying the HTTP
status they are built with.  Modelled from the spec: the §7 error-kind
table (invalid-request ↔ 400) supplies the status of
`NewInvalidRequestError`; everything else is read off the `client.go`
call sites. -/

inductive GatewayError
  | providerErr (status : Nat) (msg : String)
  | parsedErr (status : Nat) (body : String)
  | invalidRequest (msg : String)
  | ctxCanceled
deriving DecidableEq, Repr

/-- `extractStatusCode` (client.go 492-504): the status of a `GatewayError`,
`0` for `ctx.Err()` (not a gateway error) and for `nil`. -/
def extractStatusCode : Option GatewayError → Nat
  | none => 0
  | some (.providerErr s _) => s
  | some (.parsedErr s _) => s
  | some (.invalidRequest _) => 400
  | some .ctxCanceled => 0

def statusOK : Nat := 200
def statusTooManyRequests : Nat := 429
def statusBadGateway : Nat := 502
def statusServiceUnavailable : Nat := 503
def statusGatewayTimeout : Nat := 504

/-- `Client.isRetryable` (client.go 603-610). -/
def isRetryable (statusCode : Nat) : Bool :=
  statusCode == statusTooManyRequests ||
  statusCode == statusServiceUnavailable ||
  statusCode == statusBadGateway ||
  statusCode == statusGatewayTimeout

structure Response where
  statusCode : Nat
  body : String
deriving DecidableEq, Repr

/-- Outcome of one upstream HTTP attempt (`c.httpClient.Do`):
either a transport failure or a wire response. -/
inductive Outcome
  | transportErr
  | reply (status : Nat) (body : String)
deriving DecidableEq, Repr

/-- An outcome that `DoRaw` retries after. -/
def retryableOutcome : Outcome → Bool
  | .transportErr => true
  | .reply s _ => isRetryable s

inductive HookEvent
  | onStart (stream : Bool)
  | onEnd (status : Nat) (err : Option GatewayError) (stream : Bool)
deriving DecidableEq, Repr

inductive CBEvent
  | failure
  | success
deriving DecidableEq, Repr

def applyCBEvent (now : Int) (cb : CircuitBreaker) : CBEvent → CircuitBreaker
  | .failure => cb.recordFailure now
  | .success => cb.recordSuccess

def applyCBEvents (now : Int) (cb : CircuitBreaker) (evs : List CBEvent) : CircuitBreaker :=
  evs.foldl (applyCBEvent now) cb

structure ClientConfig where
  maxRetries : Nat
  cbPresent : Bool
deriving DecidableEq, Repr

/-- `maxAttempts` computation in `DoRaw` (client.go 274-277). -/
def maxAttempts (cfg : ClientConfig) : Nat := max (cfg.maxRetries + 1) 1

/-- The circuit-breaker calls one `DoRaw` attempt makes, per attempt outcome
(client.go 291-328): transport failure and retryable statuses record a
failure; a non-retryable non-200 status records a failure only when ≥ 500;
a 200 records a success. -/
def doRawAttemptCB (o : Outcome) : List CBEvent :=
  match o with
  | .transportErr => [.failure]
  | .reply s _ =>
      if isRetryable s then [.failure]
      else if s ≠ statusOK then (if 500 ≤ s then [.failure] else [])
      else [.success]

/-- The circuit-breaker calls one `DoStream` attempt makes (client.go 402-453):
transport failure records a failure; a non-200 status records a failure when
≥ 500 or equal to 429; a 200 records a success. -/
def doStreamAttemptCB (o : Outcome) : List CBEvent :=
  match o with
  | .transportErr => [.failure]
  | .reply s _ =>
      if s ≠ statusOK then (if 500 ≤ s || s == statusTooManyRequests then [.failure] else [])
      else [.success]

/-- Result of the `DoRaw` retry loop.  `ends` records the
`(status, error)` pairs passed to `callEndHook`; `attempts` counts upstream
HTTP attempts (calls of `c.httpClient.Do`). -/
structure LoopOut where
  res : Except GatewayError Response
  attempts : Nat
  cb : CircuitBreaker
  cbEvents : List CBEvent
  ends : List (Nat × Option GatewayError)
deriving Repr

/-- The retry loop of `Client.DoRaw` (client.go 272-340).

`valid` is whether `buildRequest` succeeds for this request (method and
endpoint valid, body marshals); a build failure yields an invalid-request
error without an upstream attempt.  `up i` is the outcome of the i-th
upstream attempt; `cancel k` is whether the caller context is done during
the backoff preceding retry `k`.  `a` counts upstream attempts made so far
and indexes `up`. -/
def doRawLoop (cfg : ClientConfig) (valid : Bool) (up : Nat → Outcome)
    (cancel : Nat → Bool) (now : Int) :
    Nat → Nat → CircuitBreaker → Nat → List CBEvent →
    Option GatewayError → Nat → LoopOut
  | _, 0, cb, a, evs, lastErr, lastStatus =>
      -- all retries exhausted (client.go 333-340)
      match lastErr with
      | some e => ⟨.error e, a, cb, evs, [(lastStatus, some e)]⟩
      | none =>
          let e := GatewayError.providerErr statusBadGateway "request failed after retries"
          ⟨.error e, a, cb, evs, [(statusBadGateway, some e)]⟩
  | attempt, remaining + 1, cb, a, evs, lastErr, lastStatus =>
      if attempt > 0 && cancel attempt then
        -- context cancelled while waiting out the backoff (client.go 283-288)
        ⟨.error .ctxCanceled, a, cb, evs, [(0, some .ctxCanceled)]⟩
      else if !valid then
        -- doRequest fails inside buildRequest: no upstream attempt, retried
        -- like any other doRequest error (client.go 291-300)
        let e := GatewayError.invalidRequest "invalid request"
        let newEvs := if cfg.cbPresent then [CBEvent.failure] else []
        doRawLoop cfg valid up cancel now (attempt + 1) remaining
          (applyCBEvents now cb newEvs) a (evs ++ newEvs)
          (some e) (extractStatusCode (some e))
      else
        let o := up a
        let newEvs := if cfg.cbPresent then doRawAttemptCB o else []
        let cb1 := applyCBEvents now cb newEvs
        match o with
        | .transportErr =>
            let e := GatewayError.providerErr statusBadGateway "failed to send request"
            doRawLoop cfg valid up cancel now (attempt + 1) remaining
              cb1 (a + 1) (evs ++ newEvs) (some e) (extractStatusCode (some e))
        | .reply s b =>
            if isRetryable s then
              let e := GatewayError.parsedErr s b
              doRawLoop cfg valid up cancel now (attempt + 1) remaining
                cb1 (a + 1) (evs ++ newEvs) (some e) s
            else if s ≠ statusOK then
              let e := GatewayError.parsedErr s b
              ⟨.error e, a + 1, cb1, evs ++ newEvs, [(s, some e)]⟩
            else
              ⟨.ok ⟨s, b⟩, a + 1, cb1, evs ++ newEvs, [(s, none)]⟩

structure DoOut where
  res : Except GatewayError Response
  attempts : Nat
  cb : CircuitBreaker
  cbEvents : List CBEvent
  hooks : List HookEvent
deriving Repr

/-- `Client.DoRaw` (client.go 229-341): start hook, circuit-breaker
admission, then the retry loop; every return path fires the end hook once. -/
def doRaw (cfg : ClientConfig) (valid : Bool) (up : Nat → Outcome)
    (cancel : Nat → Bool) (cb : CircuitBreaker) (now : Int) : DoOut :=
  let startEv := HookEvent.onStart false
  let adm := if cfg.cbPresent then cb.allow now else (true, cb)
  if cfg.cbPresent && !adm.1 then
    let e := GatewayError.providerErr statusServiceUnavailable
      "circuit breaker is open - provider temporarily unavailable"
    ⟨.error e, 0, adm.2, [],
      [startEv, .onEnd statusServiceUnavailable (some e) false]⟩
  else
    let r := doRawLoop cfg valid up cancel now 0 (maxAttempts cfg) adm.2 0 [] none 0
    ⟨r.res, r.attempts, r.cb, r.cbEvents,
      startEv :: r.ends.map (fun p => HookEvent.onEnd p.1 p.2 false)⟩

/-- `Client.DoStream` (client.go 346-469): never retries; `.ok` means the
stream was established (status 200) and the raw body is handed back. -/
def doStream (cfg : ClientConfig) (valid : Bool) (up : Nat → Outcome)
    (cb : CircuitBreaker) (now : Int) : DoOut :=
  let startEv := HookEvent.onStart true
  let adm := if cfg.cbPresent then cb.allow now else (true, cb)
  if cfg.cbPresent && !adm.1 then
    let e := GatewayError.providerErr statusServiceUnavailable
      "circuit breaker is open - provider temporarily unavailable"
    ⟨.error e, 0, adm.2, [],
      [startEv, .onEnd statusServiceUnavailable (some e) true]⟩
  else if !valid then
    let e := GatewayError.invalidRequest "invalid request"
    ⟨.error e, 0, adm.2, [],
      [startEv, .onEnd (extractStatusCode (some e)) (some e) true]⟩
  else
    let o := up 0
    let newEvs := if cfg.cbPresent then doStreamAttemptCB o else []
    let cb1 := applyCBEvents now adm.2 newEvs
    match o with
    | .transportErr =>
        let e := GatewayError.providerErr statusBadGateway "failed to send request"
        ⟨.error e, 1, cb1, newEvs,
          [startEv, .onEnd (extractStatusCode (some e)) (some e) true]⟩
    | .reply s b =>
        if s ≠ statusOK then
          let e := GatewayError.parsedErr s b
          ⟨.error e, 1, cb1, newEvs, [startEv, .onEnd s (some e) true]⟩
        else
          ⟨.ok ⟨s, b⟩, 1, cb1, newEvs, [startEv, .onEnd s none true]⟩

/-- `Client.Do` (client.go 192-205): `DoRaw` plus unmarshalling.
`decodeOk` abstracts whether `json.Unmarshal` of the body into the caller
result succeeds.  Returns the error surfaced to the caller, `none` on
success. -/
def clientDo (cfg : ClientConfig) (valid : Bool) (up : Nat → Outcome)
    (cancel : Nat → Bool) (cb : CircuitBreaker) (now : Int)
    (decodeOk : String → Bool) : Option GatewayError :=
  match (doRaw cfg valid up cancel cb now).res with
  | .error e => some e
  | .ok resp =>
      if decodeOk resp.body then none
      else some (.providerErr statusBadGateway "failed to unmarshal response")

/-! ## Responses-API stream converters

Both converters are byte readers; they are modelled at record granularity:

* SSE line assembly is abstracted: the upstream delivers whole lines (the
  `lineBuffer` splitting in `responses_converter.go` and `bufio.ReadBytes`
  in `anthropic.go` only reassemble lines from byte chunks);
* `json.Marshal` of the event maps cannot fail and is modelled as always
  succeeding; `json.Unmarshal` of an input payload is modelled by the line
  constructors below (`badJson` = unmarshal fails);
* the caller read slice `p` is taken large enough to drain the whole
  output buffer on each `Read` (draining preserves record order and
  content, so record-level claims are unaffected);
* each state carries a ghost field `emitted`: every record ever appended
  to the output, in order, never cleared. -/

/-- A record of the canonical responses-API output dialect.  `done` stands
for the composite `response.done` event followed by the `data: [DONE]`
marker, which the source always appends as one string. -/
inductive Rec
  | created
  | outputTextDelta (s : String)
  | done
deriving DecidableEq, Repr

/-- Error part of one upstream `Read` result. -/
inductive UpErr
  | noErr
  | eofErr
  | readErr (c : Nat)
deriving DecidableEq, Repr

/-- What one `Read` of a converter returns to its caller. -/
inductive ReadOut
  | recsOut (rs : List Rec)
  | eofOut
  | errOut (c : Nat)
deriving DecidableEq, Repr

/-! ### OpenAI-compatible converter (responses_converter.go 40-199) -/

/-- One complete input line, as the converter distinguishes them
(responses_converter.go 93-150). -/
inductive OLine
  | blankLine
  | otherLine
  | doneLine
  | badJson
  | chunkLine (content : Option String)
deriving DecidableEq, Repr

/-- One upstream `sc.reader.Read` result: the complete lines contained in
the returned bytes, plus the error returned alongside them. -/
structure OChunk where
  lines : List OLine
  err : UpErr
deriving DecidableEq, Repr

structure OConvState where
  buffer : List Rec
  emitted : List Rec
  closed : Bool
  sentCreate : Bool
  sentDone : Bool
deriving DecidableEq, Repr

def oInit : OConvState :=
  { buffer := [], emitted := [], closed := false, sentCreate := false, sentDone := false }

/-- Processing of one complete line (responses_converter.go 93-150).
Note: the content-delta path is not guarded by `sentDone`. -/
def oProcessLine (st : OConvState) (l : OLine) : OConvState :=
  match l with
  | .blankLine => st
  | .otherLine => st
  | .badJson => st
  | .doneLine =>
      if st.sentDone then st
      else { st with sentDone := true
                     buffer := st.buffer ++ [Rec.done]
                     emitted := st.emitted ++ [Rec.done] }
  | .chunkLine content =>
      match content with
      | some s =>
          if s ≠ "" then
            { st with buffer := st.buffer ++ [Rec.outputTextDelta s]
                      emitted := st.emitted ++ [Rec.outputTextDelta s] }
          else st
      | none => st

def oProcessLines (st : OConvState) (ls : List OLine) : OConvState :=
  ls.foldl oProcessLine st

/-- The tail of `OpenAIResponsesStreamConverter.Read` after the lines of the
current upstream chunk have been processed (responses_converter.go 154-198). -/
def oHandleAfter (st : OConvState) (e : UpErr) (rest : List OChunk) :
    ReadOut × OConvState × List OChunk :=
  match e with
  | .noErr =>
      if st.buffer ≠ [] then (.recsOut st.buffer, { st with buffer := [] }, rest)
      else (.recsOut [], st, rest)
  | .eofErr =>
      let st1 :=
        if st.sentDone then st
        else { st with sentDone := true
                       buffer := st.buffer ++ [Rec.done]
                       emitted := st.emitted ++ [Rec.done] }
      if st1.buffer ≠ [] then (.recsOut st1.buffer, { st1 with buffer := [] }, rest)
      else (.eofOut, { st1 with closed := true }, rest)
  | .readErr c => (.errOut c, st, rest)

/-- `OpenAIResponsesStreamConverter.Read` (responses_converter.go 40-199).
Consumes at most one upstream chunk; an exhausted script behaves as a
reader that keeps returning EOF. -/
def oRead (st : OConvState) (up : List OChunk) :
    ReadOut × OConvState × List OChunk :=
  if st.closed then (.eofOut, st, up)
  else if st.buffer ≠ [] then (.recsOut st.buffer, { st with buffer := [] }, up)
  else if !st.sentCreate then
    let st1 := { st with sentCreate := true
                         buffer := st.buffer ++ [Rec.created]
                         emitted := st.emitted ++ [Rec.created] }
    (.recsOut st1.buffer, { st1 with buffer := [] }, up)
  else
    match up with
    | [] => oHandleAfter st .eofErr []
    | ch :: rest => oHandleAfter (oProcessLines st ch.lines) ch.err rest

/-- Drive `fuel` consecutive `Read` calls. -/
def oRun : Nat → OConvState → List OChunk →
    List ReadOut × OConvState × List OChunk
  | 0, st, up => ([], st, up)
  | fuel + 1, st, up =>
      let r := oRead st up
      let r' := oRun fuel r.2.1 r.2.2
      (r.1 :: r'.1, r'.2.1, r'.2.2)

/-! ### Anthropic responses converter (anthropic.go 569-722) -/

/-- The fields of `anthropicStreamEvent` inspected by
`responsesStreamConverter.convertEvent`: the type tag and
`Delta.Text` (`none` when `Delta` is nil). -/
structure AEvent where
  etype : String
  deltaText : Option String
deriving DecidableEq, Repr

/-- One complete input line, as the converter distinguishes them
(anthropic.go 641-672). -/
inductive ALine
  | blankLine
  | eventTagLine
  | otherLine
  | badJson
  | dataEvent (e : AEvent)
deriving DecidableEq, Repr

/-- One upstream `bufio.ReadBytes` result. -/
inductive ARead
  | lineRead (l : ALine)
  | eofRead
  | errRead (c : Nat)
deriving DecidableEq, Repr

structure AConvState where
  buffer : List Rec
  emitted : List Rec
  closed : Bool
  sentDone : Bool
deriving DecidableEq, Repr

def aInit : AConvState :=
  { buffer := [], emitted := [], closed := false, sentDone := false }

/-- `responsesStreamConverter.convertEvent` (anthropic.go 681-722):
`message_start` yields the `response.created` event; `content_block_delta`
with non-empty text yields a delta; everything else yields nothing. -/
def aConvertEvent (e : AEvent) : Option Rec :=
  if e.etype == "message_start" then some Rec.created
  else if e.etype == "content_block_delta" then
    match e.deltaText with
    | some s => if s ≠ "" then some (Rec.outputTextDelta s) else none
    | none => none
  else none

/-- What a parsed input line contributes to the output. -/
def aLineRec : ALine → Option Rec
  | .dataEvent e => aConvertEvent e
  | _ => none

/-- The EOF branch of `responsesStreamConverter.Read` (anthropic.go 606-636):
emit the final done record once (the converter is not closed on that path),
then EOF with the converter closed. -/
def aAtEOF (st : AConvState) (rest : List ARead) :
    ReadOut × AConvState × List ARead :=
  if st.sentDone then (.eofOut, { st with closed := true }, rest)
  else
    (.recsOut [Rec.done],
      { st with sentDone := true, emitted := st.emitted ++ [Rec.done] }, rest)

/-- The line loop of `responsesStreamConverter.Read` (anthropic.go 603-673):
keep consuming upstream reads until a convertible record, EOF, or an error.
An exhausted script behaves as a reader that keeps returning EOF. -/
def aReadLoop (st : AConvState) : List ARead → ReadOut × AConvState × List ARead
  | [] => aAtEOF st []
  | .eofRead :: rest => aAtEOF st rest
  | .errRead c :: rest => (.errOut c, st, rest)
  | .lineRead l :: rest =>
      match aLineRec l with
      | none => aReadLoop st rest
      | some r =>
          let st1 := { st with buffer := st.buffer ++ [r], emitted := st.emitted ++ [r] }
          (.recsOut st1.buffer, { st1 with buffer := [] }, rest)

/-- `responsesStreamConverter.Read` (anthropic.go 590-674). -/
def aRead (st : AConvState) (up : List ARead) :
    ReadOut × AConvState × List ARead :=
  if st.closed then (.eofOut, st, up)
  else if st.buffer ≠ [] then (.recsOut st.buffer, { st with buffer := [] }, up)
  else aReadLoop st up

/-- Drive `fuel` consecutive `Read` calls. -/
def aRun : Nat → AConvState → List ARead →
    List ReadOut × AConvState × List ARead
  | 0, st, up => ([], st, up)
  | fuel + 1, st, up =>
      let r := aRead st up
      let r' := aRun fuel r.2.1 r.2.2
      (r.1 :: r'.1, r'.2.1, r'.2.2)

/-! ## Master-key authentication and route wiring (internal/server)

Strings are handled through their character lists so that the prefix
manipulation of the Go code can be reasoned about. -/

/-- `strings.HasPrefix s pre`. -/
def goHasPre (s pre : String) : Bool :=
  pre.toList.isPrefixOf s.toList

/-- `strings.TrimPrefix s pre`. -/
def goTrimPre (s pre : String) : String :=
  if goHasPre s pre then ⟨s.toList.drop pre.toList.length⟩ else s

/-- Functional semantics of `crypto/subtle.ConstantTimeCompare(a, b) == 1`:
true exactly when the two byte strings are equal.  (That the comparison
runs in constant time is a timing property outside this embedding.) -/
def constantTimeCompareEq (a b : String) : Bool := a == b

inductive AuthResult
  | pass
  | unauthorized (msg : String)
deriving DecidableEq, Repr

/-- `AuthMiddleware` (server package, registered in http.go 70-72): the
per-request decision as a function of the configured master key and the
`Authorization` header (`""` when the header is absent). -/
def authMiddleware (masterKey authHeader : String) : AuthResult :=
  if masterKey == "" then .pass
  else if authHeader == "" then .unauthorized "missing authorization header"
  else if !(goHasPre authHeader "Bearer ") then
    .unauthorized "invalid authorization header format"
  else
    let token := goTrimPre authHeader "Bearer "
    if !(constantTimeCompareEq token masterKey) then .unauthorized "invalid master key"
    else .pass

structure ServerConfig where
  masterKey : String
  metricsEnabled : Bool
  metricsEndpoint : String
deriving DecidableEq, Repr

/-- The metrics path actually registered (http.go 46-60).  `path.Clean`
from the Go standard library is not modelled: the configured path is taken
as already clean. -/
def effectiveMetricsPath (cfg : ServerConfig) : String :=
  let p := if cfg.metricsEndpoint == "" then "/metrics" else cfg.metricsEndpoint
  if p == "/v1" || goHasPre p "/v1/" then "/metrics" else p

inductive ServeOutcome
  | handled (route : String)
  | unauthorized
  | notFound
deriving DecidableEq, Repr

def ServeOutcome.isHandled : ServeOutcome → Bool
  | .handled _ => true
  | _ => false

/-- The `/v1` routes registered on the authenticated group (http.go 64-76). -/
def apiRoutes : List String := ["/v1/models", "/v1/chat/completions", "/v1/responses"]

/-- Dispatch of `server.New` (http.go 30-82): `/health` and the metrics
endpoint are registered outside the `/v1` group; the `/v1` group carries
`AuthMiddleware` exactly when a master key is configured.  (The body-size
limit middleware on the group is not modelled.) -/
def serve (cfg : ServerConfig) (path authHeader : String) : ServeOutcome :=
  if path == "/health" then .handled "/health"
  else if cfg.metricsEnabled && path == effectiveMetricsPath cfg then .handled path
  else if apiRoutes.contains path then
    if cfg.masterKey != "" then
      match authMiddleware cfg.masterKey authHeader with
      | .pass => .handled path
      | .unauthorized _ => .unauthorized
    else .handled path
  else .notFound

/-! ## Anthropic request conversion (anthropic.go 70-153) -/

structure Message where
  role : String
  content : String
deriving DecidableEq, Repr

structure ChatRequest where
  model : String
  messages : List Message
  temperature : Option ℚ
  maxTokens : Option Int
  stream : Bool
deriving DecidableEq, Repr

structure AnthropicMessage where
  role : String
  content : String
deriving DecidableEq, Repr

structure AnthropicRequest where
  model : String
  messages : List AnthropicMessage
  maxTokens : Int
  temperature : Option ℚ
  system : String
  stream : Bool
deriving DecidableEq, Repr

/-- The message loop of `convertToAnthropicRequest` (anthropic.go 140-150):
a system message overwrites the `System` field; any other message is
appended to `Messages`. -/
def convertMessagesLoop : List Message → AnthropicRequest → AnthropicRequest
  | [], acc => acc
  | m :: rest, acc =>
      if m.role == "system" then
        convertMessagesLoop rest { acc with system := m.content }
      else
        convertMessagesLoop rest
          { acc with messages := acc.messages ++ [⟨m.role, m.content⟩] }

/-- `convertToAnthropicRequest` (anthropic.go 126-153). -/
def convertToAnthropicRequest (req : ChatRequest) : AnthropicRequest :=
  let base : AnthropicRequest :=
    { model := req.model
      messages := []
      maxTokens := 4096
      temperature := req.temperature
      system := ""
      stream := req.stream }
  let base1 :=
    match req.maxTokens with
    | some mt => { base with maxTokens := mt }
    | none => base
  convertMessagesLoop req.messages base1

/-! ## Derived description of the OpenAI converter output

`oEmitLines sd ls` runs the per-line emission of the OpenAI converter over
a line sequence starting from done-flag `sd`, returning the final flag and
the records emitted.  It is related to `oProcessLines` below and used to
state what a whole converter run emits. -/

def oEmitStep (sd : Bool) (l : OLine) : Bool × List Rec :=
  match l with
  | .doneLine => if sd then (sd, []) else (true, [Rec.done])
  | .chunkLine (some s) => (sd, if s ≠ "" then [Rec.outputTextDelta s] else [])
  | _ => (sd, [])

def oEmitLines (sd : Bool) : List OLine → Bool × List Rec
  | [] => (sd, [])
  | l :: ls =>
      let r := oEmitStep sd l
      let r' := oEmitLines r.1 ls
      (r'.1, r.2 ++ r'.2)

/-- The error a client result surfaces, if any. -/
def resErr : Except GatewayError Response → Option GatewayError
  | .error e => some e
  | .ok _ => none


/-! ## Helper lemmas about the circuit breaker -/

theorem isRetryable_iff (s : Nat) :
    isRetryable s = true ↔ s = 429 ∨ s = 502 ∨ s = 503 ∨ s = 504 := by
  simp only [isRetryable, statusTooManyRequests, statusServiceUnavailable,
    statusBadGateway, statusGatewayTimeout, Bool.or_eq_true, beq_iff_eq]
  tauto

theorem recordSuccess_closed (cb : CircuitBreaker) (h : cb.state = .circuitClosed) :
    cb.recordSuccess = { cb with failures := 0 } := by
  simp [CircuitBreaker.recordSuccess, h]

theorem iterate_recordSuccess_closed (cb : CircuitBreaker) (n : Nat)
    (h : cb.state = .circuitClosed) :
    (CircuitBreaker.recordSuccess^[n] cb).state = .circuitClosed := by
  induction n generalizing cb with
  | zero => simpa using h
  | succ n ih =>
      rw [Function.iterate_succ_apply, recordSuccess_closed cb h]
      exact ih _ h

theorem recordSuccess_halfOpen (cb : CircuitBreaker) (h : cb.state = .circuitHalfOpen) :
    cb.recordSuccess =
      (if cb.successThreshold ≤ cb.successes + 1 then
        { cb with successes := cb.successes + 1, halfOpenAllowed := true, state := .circuitClosed, failures := 0 }
       else
        { cb with successes := cb.successes + 1, halfOpenAllowed := true }) := by
  simp only [CircuitBreaker.recordSuccess, h]

theorem recordFailure_closed (cb : CircuitBreaker) (now : Int)
    (h : cb.state = .circuitClosed) :
    cb.recordFailure now =
      (if cb.failureThreshold ≤ cb.failures + 1 then
        { cb with failures := cb.failures + 1, lastFailure := now, state := .circuitOpen }
       else
        { cb with failures := cb.failures + 1, lastFailure := now }) := by
  simp only [CircuitBreaker.recordFailure, h]

theorem recordFailure_halfOpen (cb : CircuitBreaker) (now : Int)
    (h : cb.state = .circuitHalfOpen) :
    cb.recordFailure now =
      { cb with failures := cb.failures + 1, lastFailure := now, state := .circuitOpen, successes := 0, halfOpenAllowed := true } := by
  simp only [CircuitBreaker.recordFailure, h]

theorem doRawAttemptCB_reply (s : Nat) (b : String) :
    doRawAttemptCB (.reply s b) =
      (if 500 ≤ s ∨ s = 429 then [CBEvent.failure]
       else if s = statusOK then [CBEvent.success] else []) := by
  simp only [doRawAttemptCB, statusOK]
  split_ifs with h1 h2 h3 h4 h5 <;>
    first
      | rfl
      | (simp only [isRetryable_iff] at *; omega)

theorem doStreamAttemptCB_reply (s : Nat) (b : String) :
    doStreamAttemptCB (.reply s b) =
      (if 500 ≤ s ∨ s = 429 then [CBEvent.failure]
       else if s = statusOK then [CBEvent.success] else []) := by
  simp only [doStreamAttemptCB, statusOK, statusTooManyRequests, Bool.or_eq_true,
    decide_eq_true_eq, beq_iff_eq]
  split_ifs with h1 h2 h3 h4 h5 <;>
    first
      | rfl
      | omega

/-! ## C3 — circuit-breaker failure accounting -/

/-- C3: the closed state transitions to open exactly when the consecutive
failure count reaches `FailureThreshold`; both the buffered (`DoRaw`) and
streaming (`DoStream`) attempt paths record a failure exactly for transport
failures, statuses ≥ 500, and status 429 (so never for other 4xx); a
success in closed state resets the consecutive-failure count. -/
theorem c3_breaker_failure_accounting :
    (∀ o : Outcome, CBEvent.failure ∈ doRawAttemptCB o ↔
      (o = .transportErr ∨ ∃ s b, o = .reply s b ∧ (500 ≤ s ∨ s = 429))) ∧
    (∀ o : Outcome, CBEvent.failure ∈ doStreamAttemptCB o ↔
      (o = .transportErr ∨ ∃ s b, o = .reply s b ∧ (500 ≤ s ∨ s = 429))) ∧
    (∀ (cb : CircuitBreaker) (now : Int), cb.state = .circuitClosed →
      ((cb.recordFailure now).state = .circuitOpen ↔
        cb.failureThreshold ≤ cb.failures + 1)) ∧
    (∀ cb : CircuitBreaker, cb.state = .circuitClosed →
      cb.recordSuccess.failures = 0 ∧ cb.recordSuccess.state = .circuitClosed) := by
  refine ⟨?_, ?_, ?_, ?_⟩
  · intro o
    match o with
    | .transportErr => simp [doRawAttemptCB]
    | .reply s b =>
        rw [doRawAttemptCB_reply]
        by_cases h : 500 ≤ s ∨ s = 429
        · rw [if_pos h]
          constructor
          · intro _
            exact Or.inr ⟨s, b, rfl, h⟩
          · intro _
            simp
        · rw [if_neg h]
          constructor
          · intro hmem
            by_cases h200 : s = statusOK
            · rw [if_pos h200] at hmem
              simp at hmem
            · rw [if_neg h200] at hmem
              simp at hmem
          · rintro (heq | ⟨s', b', heq, hc⟩)
            · exact absurd heq (by simp)
            · cases heq
              exact absurd hc h
  · intro o
    match o with
    | .transportErr => simp [doStreamAttemptCB]
    | .reply s b =>
        rw [doStreamAttemptCB_reply]
        by_cases h : 500 ≤ s ∨ s = 429
        · rw [if_pos h]
          constructor
          · intro _
            exact Or.inr ⟨s, b, rfl, h⟩
          · intro _
            simp
        · rw [if_neg h]
          constructor
          · intro hmem
            by_cases h200 : s = statusOK
            · rw [if_pos h200] at hmem
              simp at hmem
            · rw [if_neg h200] at hmem
              simp at hmem
          · rintro (heq | ⟨s', b', heq, hc⟩)
            · exact absurd heq (by simp)
            · cases heq
              exact absurd hc h
  · intro cb now h
    rw [recordFailure_closed cb now h]
    by_cases hth : cb.failureThreshold ≤ cb.failures + 1
    · rw [if_pos hth]
      simpa using hth
    · rw [if_neg hth]
      simp [h, hth]
  · intro cb h
    rw [recordSuccess_closed cb h]
    exact ⟨rfl, h⟩

theorem c3_breaker_failure_accounting_witness :
    (CBEvent.failure ∈ doRawAttemptCB (Outcome.reply 500 "oops")) ∧
    (CBEvent.failure ∈ doStreamAttemptCB (Outcome.reply 429 "slow")) ∧
    ((newCircuitBreaker 1 2 30).recordFailure 5).state = CircuitState.circuitOpen ∧
    ((newCircuitBreaker 1 2 30).recordSuccess).failures = 0 := by
  refine ⟨?_, ?_, ?_, ?_⟩
  · exact (c3_breaker_failure_accounting.1 (Outcome.reply 500 "oops")).mpr
      (Or.inr ⟨500, "oops", rfl, Or.inl (by norm_num)⟩)
  · exact (c3_breaker_failure_accounting.2.1 (Outcome.reply 429 "slow")).mpr
      (Or.inr ⟨429, "slow", rfl, Or.inr rfl⟩)
  · exact (c3_breaker_failure_accounting.2.2.1 (newCircuitBreaker 1 2 30) 5 rfl).mpr
      (by norm_num [newCircuitBreaker])
  · exact (c3_breaker_failure_accounting.2.2.2 (newCircuitBreaker 1 2 30) rfl).1

/-! ## C4 — open / half-open protocol -/

/-- C4: while open and inside the timeout window, every call is rejected
with no upstream attempt and a synthetic 503; once the timeout has elapsed
since the last recorded failure, the next admitted call flips the breaker
to half-open and consumes the single probe token; callers arriving while
the probe is outstanding are rejected; `SuccessThreshold` successes in
half-open close the breaker; a failure in half-open reopens it with the
probe token reset for the next timeout window. -/
theorem c4_breaker_open_halfopen :
    (∀ (cb : CircuitBreaker) (now : Int), cb.state = .circuitOpen →
      now - cb.lastFailure ≤ cb.timeout → cb.allow now = (false, cb)) ∧
    (∀ (cfg : ClientConfig) (valid : Bool) (up : Nat → Outcome)
        (cancel : Nat → Bool) (cb : CircuitBreaker) (now : Int),
      cfg.cbPresent = true → (cb.allow now).1 = false →
      (doRaw cfg valid up cancel cb now).attempts = 0 ∧
      (doRaw cfg valid up cancel cb now).res =
        .error (.providerErr statusServiceUnavailable
          "circuit breaker is open - provider temporarily unavailable") ∧
      (doStream cfg valid up cb now).attempts = 0 ∧
      (doStream cfg valid up cb now).res =
        .error (.providerErr statusServiceUnavailable
          "circuit breaker is open - provider temporarily unavailable")) ∧
    (∀ (cb : CircuitBreaker) (now : Int), cb.state = .circuitOpen →
      cb.timeout < now - cb.lastFailure →
      cb.allow now =
        (true, { cb with state := .circuitHalfOpen, successes := 0, halfOpenAllowed := false })) ∧
    (∀ (cb : CircuitBreaker) (now : Int), cb.state = .circuitHalfOpen →
      cb.halfOpenAllowed = false → cb.allow now = (false, cb)) ∧
    (∀ (cb : CircuitBreaker) (n : Nat), cb.state = .circuitHalfOpen →
      1 ≤ n → cb.successThreshold ≤ cb.successes + n →
      (CircuitBreaker.recordSuccess^[n] cb).state = .circuitClosed) ∧
    (∀ (cb : CircuitBreaker) (now : Int), cb.state = .circuitHalfOpen →
      (cb.recordFailure now).state = .circuitOpen ∧
      (cb.recordFailure now).halfOpenAllowed = true ∧
      (cb.recordFailure now).successes = 0) := by
  refine ⟨?_, ?_, ?_, ?_, ?_, ?_⟩
  · intro cb now h ht
    simp only [CircuitBreaker.allow, h]
    rw [if_neg (by omega)]
  · intro cfg valid up cancel cb now hp hrej
    refine ⟨?_, ?_, ?_, ?_⟩ <;> simp [doRaw, doStream, hp, hrej]
  · intro cb now h ht
    simp only [CircuitBreaker.allow, h]
    rw [if_pos (by omega)]
    simp
  · intro cb now h hflag
    simp only [CircuitBreaker.allow, h, hflag]
    simp
  · intro cb n h hn hth
    induction n generalizing cb with
    | zero => omega
    | succ n ih =>
        rw [Function.iterate_succ_apply, recordSuccess_halfOpen cb h]
        by_cases hcl : cb.successThreshold ≤ cb.successes + 1
        · rw [if_pos hcl]
          exact iterate_recordSuccess_closed _ n rfl
        · rw [if_neg hcl]
          have hn' : 1 ≤ n := by omega
          exact ih _ h hn' (by show cb.successThreshold ≤ cb.successes + 1 + n; omega)
  · intro cb now h
    rw [recordFailure_halfOpen cb now h]
    exact ⟨rfl, rfl, rfl⟩

theorem c4_breaker_open_halfopen_witness :
    (({ newCircuitBreaker 3 2 30 with state := .circuitOpen, lastFailure := 100 } : CircuitBreaker).allow 120
        = (false, { newCircuitBreaker 3 2 30 with state := .circuitOpen, lastFailure := 100 })) ∧
    (CircuitBreaker.recordSuccess^[2]
        ({ newCircuitBreaker 3 2 30 with state := .circuitHalfOpen } : CircuitBreaker)).state
      = CircuitState.circuitClosed := by
  constructor
  · exact c4_breaker_open_halfopen.1 _ 120 rfl (by norm_num [newCircuitBreaker])
  · exact c4_breaker_open_halfopen.2.2.2.2.1 _ 2 rfl (by norm_num)
      (by norm_num [newCircuitBreaker])

/-! ## C8 — backoff formula -/

/-- C8: the wait before the k-th retry (k ≥ 1) is
`InitialBackoff * BackoffFactor^(k-1)` capped at `MaxBackoff`, multiplied
by the jitter factor `1 - JitterFactor + 2 * JitterFactor * r`, which lies
in `[1 - JitterFactor, 1 + JitterFactor]` for `r ∈ [0, 1)`.  (`DoRaw`
calls `calculateBackoff attempt` with `attempt = k` for the k-th retry,
client.go 279-289.) -/
theorem c8_backoff_formula (cfg : BackoffConfig) (attempt : Nat) (r : ℚ)
    (hk : 1 ≤ attempt) (hj : 0 < cfg.jitterFactor) (hr0 : 0 ≤ r) (hr1 : r < 1) :
    calculateBackoff cfg attempt r =
      min (cfg.initialBackoff * cfg.backoffFactor ^ (attempt - 1)) cfg.maxBackoff *
        (1 - cfg.jitterFactor + 2 * cfg.jitterFactor * r) ∧
    1 - cfg.jitterFactor ≤ 1 - cfg.jitterFactor + 2 * cfg.jitterFactor * r ∧
    1 - cfg.jitterFactor + 2 * cfg.jitterFactor * r ≤ 1 + cfg.jitterFactor := by
  refine ⟨?_, ?_, ?_⟩
  · simp only [calculateBackoff, if_pos hj]
    rcases lt_or_le cfg.maxBackoff (cfg.initialBackoff * cfg.backoffFactor ^ (attempt - 1)) with hc | hc
    · rw [if_pos hc, min_eq_right (le_of_lt hc)]
      ring
    · rw [if_neg (not_lt.mpr hc), min_eq_left hc]
      ring
  · nlinarith
  · nlinarith

theorem c8_backoff_formula_witness :
    calculateBackoff ⟨1, 30, 2, 1/10⟩ 2 (1/2) =
      min ((1 : ℚ) * 2 ^ (2 - 1)) 30 * (1 - 1/10 + 2 * (1/10) * (1/2)) :=
  (c8_backoff_formula ⟨1, 30, 2, 1/10⟩ 2 (1/2) (by norm_num) (by norm_num)
    (by norm_num) (by norm_num)).1

/-! ## C9 — anthropic request conversion -/

theorem convertMessagesLoop_spec (msgs : List Message) (acc : AnthropicRequest) :
    convertMessagesLoop msgs acc =
      { acc with
        messages := acc.messages ++
          (msgs.filter (fun m => !(m.role == "system"))).map
            (fun m => AnthropicMessage.mk m.role m.content)
        system := (msgs.filter (fun m => m.role == "system")).foldl
          (fun _ m => m.content) acc.system } := by
  induction msgs generalizing acc with
  | nil => simp [convertMessagesLoop]
  | cons m rest ih =>
      by_cases hs : m.role == "system"
      · simp only [convertMessagesLoop, hs, if_pos, List.filter_cons, Bool.not_eq_true']
        rw [ih]
        simp [hs]
      · simp only [convertMessagesLoop, hs, List.filter_cons, Bool.not_eq_true']
        rw [if_neg (by simp [hs]), ih]
        simp [hs]

/-- C9 counterexample: with two system messages, the content of the first
one is not lifted into the native `system` field — the later assignment
overwrites it (anthropic.go 141-150). -/
theorem c9_counterexample :
    (Message.mk "system" "a") ∈
      (ChatRequest.mk "m" [⟨"system", "a"⟩, ⟨"system", "b"⟩, ⟨"user", "hi"⟩]
        none none false).messages ∧
    (convertToAnthropicRequest
      (ChatRequest.mk "m" [⟨"system", "a"⟩, ⟨"system", "b"⟩, ⟨"user", "hi"⟩]
        none none false)).system ≠ "a" := by
  constructor
  · simp
  · decide

/-- C9 (amended): non-system messages are placed in the native `messages`
array in their original order with system messages omitted; the native
`system` field holds the content of the last system message (empty when
there is none) — earlier system messages are overwritten, not kept. -/
theorem c9_amended_system_lift (req : ChatRequest) :
    (convertToAnthropicRequest req).messages =
      (req.messages.filter (fun m => !(m.role == "system"))).map
        (fun m => AnthropicMessage.mk m.role m.content) ∧
    (convertToAnthropicRequest req).system =
      (req.messages.filter (fun m => m.role == "system")).foldl
        (fun _ m => m.content) "" ∧
    (convertToAnthropicRequest req).model = req.model ∧
    (convertToAnthropicRequest req).stream = req.stream := by
  unfold convertToAnthropicRequest
  cases hmt : req.maxTokens with
  | none => rw [convertMessagesLoop_spec]; simp
  | some mt => rw [convertMessagesLoop_spec]; simp

/-! ## C7 — master-key gate on the /v1 routes -/

theorem string_toList_append (a b : String) : (a ++ b).toList = a.toList ++ b.toList := by
  cases a
  cases b
  rfl

theorem goHasPre_append (pre rest : String) : goHasPre (pre ++ rest) pre = true := by
  simp only [goHasPre, string_toList_append, List.isPrefixOf_iff_prefix]
  exact List.prefix_append _ _

theorem goTrimPre_append (pre rest : String) : goTrimPre (pre ++ rest) pre = rest := by
  rw [goTrimPre, if_pos (goHasPre_append pre rest)]
  have hd : (pre ++ rest).toList.drop pre.toList.length = rest.toList := by
    rw [string_toList_append]
    exact List.drop_left _ _
  rw [hd]
  rfl

theorem goHasPre_decomp (s pre : String) (h : goHasPre s pre = true) :
    s = pre ++ goTrimPre s pre := by
  rw [goTrimPre, if_pos h]
  rw [goHasPre, List.isPrefixOf_iff_prefix] at h
  obtain ⟨t, ht⟩ := h
  cases s with
  | mk sl =>
      cases pre with
      | mk pl =>
          have ht' : pl ++ t = sl := ht
          have hsl : sl = pl ++ List.drop pl.length sl := by
            rw [← ht', List.drop_left]
          exact congrArg String.mk hsl

theorem bearer_append_ne_empty (mk : String) : ("Bearer " ++ mk) ≠ "" := by
  intro h
  have h2 := congrArg String.toList h
  rw [string_toList_append] at h2
  simp at h2

theorem authMiddleware_pass_iff (mk h : String) (hmk : mk ≠ "") :
    authMiddleware mk h = .pass ↔ h = "Bearer " ++ mk := by
  unfold authMiddleware
  rw [if_neg (by simpa using hmk)]
  by_cases hh : h = ""
  · rw [if_pos (by simp [hh])]
    constructor
    · intro hc
      exact AuthResult.noConfusion hc
    · intro hc
      rw [hh] at hc
      exact absurd hc.symm (bearer_append_ne_empty mk)
  · rw [if_neg (by simp [hh])]
    by_cases hp : goHasPre h "Bearer " = true
    · rw [if_neg (by simp [hp])]
      by_cases ht : goTrimPre h "Bearer " = mk
      · rw [if_neg (by simp [constantTimeCompareEq, ht])]
        constructor
        · intro _
          conv_lhs => rw [goHasPre_decomp h "Bearer " hp]
          rw [ht]
        · intro _
          rfl
      · rw [if_pos (by simp [constantTimeCompareEq, ht])]
        constructor
        · intro hc
          exact AuthResult.noConfusion hc
        · intro hc
          exact absurd (by rw [hc]; exact goTrimPre_append _ _) ht
    · have hp' : goHasPre h "Bearer " = false := by simpa using hp
      rw [if_pos (by simp [hp'])]
      constructor
      · intro hc
        exact AuthResult.noConfusion hc
      · intro hc
        exact absurd (by rw [hc]; exact goHasPre_append _ _) hp

theorem effectiveMetricsPath_not_v1 (cfg : ServerConfig) :
    effectiveMetricsPath cfg ≠ "/v1" ∧
    goHasPre (effectiveMetricsPath cfg) "/v1/" = false := by
  simp only [effectiveMetricsPath]
  generalize (if cfg.metricsEndpoint == "" then "/metrics" else cfg.metricsEndpoint) = p
  by_cases hc : (p == "/v1" || goHasPre p "/v1/") = true
  · rw [if_pos hc]
    exact ⟨by decide, by decide⟩
  · rw [if_neg hc]
    simp only [Bool.or_eq_true, beq_iff_eq, not_or] at hc
    refine ⟨hc.1, ?_⟩
    simpa using hc.2

theorem serve_api_route (cfg : ServerConfig) (hk : cfg.masterKey ≠ "") (p : String)
    (hmem : apiRoutes.contains p = true)
    (hhealth : (p == "/health") = false)
    (hpre : goHasPre p "/v1/" = true) (h : String) :
    (serve cfg p h = .handled p ↔ h = "Bearer " ++ cfg.masterKey) ∧
    (h ≠ "Bearer " ++ cfg.masterKey → serve cfg p h = .unauthorized) := by
  have hne : (p == effectiveMetricsPath cfg) = false := by
    simp only [beq_eq_false_iff_ne, ne_eq]
    intro he
    have h2 := (effectiveMetricsPath_not_v1 cfg).2
    rw [← he, hpre] at h2
    exact Bool.noConfusion h2
  have hmk : (cfg.masterKey != "") = true := by simpa using hk
  have hmem' : p ∈ apiRoutes := by simpa using hmem
  by_cases hauth : h = "Bearer " ++ cfg.masterKey
  · subst hauth
    have hA : authMiddleware cfg.masterKey ("Bearer " ++ cfg.masterKey) = .pass :=
      (authMiddleware_pass_iff cfg.masterKey _ hk).mpr rfl
    constructor
    · simp [serve, hhealth, hne, hmem', hmk, hA]
    · intro hc
      exact absurd rfl hc
  · have hA : authMiddleware cfg.masterKey h ≠ .pass := by
      intro hc
      exact hauth ((authMiddleware_pass_iff cfg.masterKey h hk).mp hc)
    cases hAv : authMiddleware cfg.masterKey h with
    | pass => exact absurd hAv hA
    | unauthorized msg =>
        constructor
        · simp [serve, hhealth, hne, hmem', hmk, hAv, hauth]
        · intro _
          simp [serve, hhealth, hne, hmem', hmk, hAv]

/-- C7: with a master key configured, `/health` and the metrics endpoint
are served without credentials, the effective metrics path is never under
`/v1`, and each `/v1` route is served iff the `Authorization` header is
exactly the string `Bearer ` followed by the configured master key (the
comparison being functionally exact equality, as `subtle.ConstantTimeCompare`
computes); any other header yields the 401 authentication outcome.
(Constant-time execution itself is a timing property outside the model.) -/
theorem c7_auth_gate (cfg : ServerConfig) (hk : cfg.masterKey ≠ "") :
    (∀ h, serve cfg "/health" h = .handled "/health") ∧
    (cfg.metricsEnabled = true →
      ∀ h, (serve cfg (effectiveMetricsPath cfg) h).isHandled = true) ∧
    (effectiveMetricsPath cfg ≠ "/v1" ∧
      goHasPre (effectiveMetricsPath cfg) "/v1/" = false) ∧
    (∀ p, p ∈ apiRoutes → ∀ h,
      (serve cfg p h = .handled p ↔ h = "Bearer " ++ cfg.masterKey) ∧
      (h ≠ "Bearer " ++ cfg.masterKey → serve cfg p h = .unauthorized)) := by
  refine ⟨?_, ?_, effectiveMetricsPath_not_v1 cfg, ?_⟩
  · intro h
    simp [serve]
  · intro hm h
    by_cases hhp : effectiveMetricsPath cfg = "/health"
    · simp [serve, hhp, ServeOutcome.isHandled]
    · simp [serve, hhp, hm, ServeOutcome.isHandled]
  · intro p hp h
    simp only [apiRoutes, List.mem_cons, List.not_mem_nil, or_false] at hp
    rcases hp with rfl | rfl | rfl
    · exact serve_api_route cfg hk _ (by decide) (by decide) (by decide) h
    · exact serve_api_route cfg hk _ (by decide) (by decide) (by decide) h
    · exact serve_api_route cfg hk _ (by decide) (by decide) (by decide) h

theorem c7_auth_gate_witness :
    serve ⟨"secret", true, "/metrics"⟩ "/v1/models" "Bearer secret"
      = ServeOutcome.handled "/v1/models" ∧
    serve ⟨"secret", true, "/metrics"⟩ "/v1/models" "Bearer wrong"
      = ServeOutcome.unauthorized ∧
    serve ⟨"secret", true, "/metrics"⟩ "/health" "" = ServeOutcome.handled "/health" := by
  refine ⟨?_, ?_, ?_⟩
  · exact ((c7_auth_gate ⟨"secret", true, "/metrics"⟩ (by decide)).2.2.2
      "/v1/models" (by simp [apiRoutes]) "Bearer secret").1.mpr (by decide)
  · exact ((c7_auth_gate ⟨"secret", true, "/metrics"⟩ (by decide)).2.2.2
      "/v1/models" (by simp [apiRoutes]) "Bearer wrong").2 (by decide)
  · exact (c7_auth_gate ⟨"secret", true, "/metrics"⟩ (by decide)).1 ""

/-! ## The DoRaw retry loop: master lemma -/

theorem doRawLoop_spec (cfg : ClientConfig) (valid : Bool) (up : Nat → Outcome)
    (cancel : Nat → Bool) (now : Int) :
    ∀ (remaining attempt : Nat) (cb : CircuitBreaker) (a : Nat)
      (evs : List CBEvent) (lastErr : Option GatewayError) (lastStatus : Nat),
      (doRawLoop cfg valid up cancel now attempt remaining cb a evs lastErr lastStatus).attempts
          ≤ a + remaining ∧
      a ≤ (doRawLoop cfg valid up cancel now attempt remaining cb a evs lastErr lastStatus).attempts ∧
      (∀ i, a ≤ i →
        i + 1 < (doRawLoop cfg valid up cancel now attempt remaining cb a evs lastErr lastStatus).attempts →
        retryableOutcome (up i) = true) ∧
      (∃ s e,
        (doRawLoop cfg valid up cancel now attempt remaining cb a evs lastErr lastStatus).ends = [(s, e)] ∧
        e = resErr (doRawLoop cfg valid up cancel now attempt remaining cb a evs lastErr lastStatus).res ∧
        (∀ resp,
          (doRawLoop cfg valid up cancel now attempt remaining cb a evs lastErr lastStatus).res = .ok resp →
          s = resp.statusCode)) ∧
      (∀ resp,
        (doRawLoop cfg valid up cancel now attempt remaining cb a evs lastErr lastStatus).res = .ok resp →
        resp.statusCode = statusOK) := by
  intro remaining
  induction remaining with
  | zero =>
      intro attempt cb a evs lastErr lastStatus
      cases lastErr with
      | some e =>
          refine ⟨by simp [doRawLoop], by simp [doRawLoop], ?_, ?_, ?_⟩
          · intro i hai hlt
            simp only [doRawLoop] at hlt
            omega
          · refine ⟨lastStatus, some e, by simp [doRawLoop], by simp [doRawLoop, resErr], ?_⟩
            intro resp hresp
            simp only [doRawLoop] at hresp
            exact absurd hresp (by simp)
          · intro resp hresp
            simp only [doRawLoop] at hresp
            exact absurd hresp (by simp)
      | none =>
          refine ⟨by simp [doRawLoop], by simp [doRawLoop], ?_, ?_, ?_⟩
          · intro i hai hlt
            simp only [doRawLoop] at hlt
            omega
          · refine ⟨statusBadGateway,
              some (GatewayError.providerErr statusBadGateway "request failed after retries"),
              by simp [doRawLoop], by simp [doRawLoop, resErr], ?_⟩
            intro resp hresp
            simp only [doRawLoop] at hresp
            exact absurd hresp (by simp)
          · intro resp hresp
            simp only [doRawLoop] at hresp
            exact absurd hresp (by simp)
  | succ rem ih =>
      intro attempt cb a evs lastErr lastStatus
      simp only [doRawLoop]
      by_cases hc : (attempt > 0 && cancel attempt) = true
      · rw [if_pos hc]
        refine ⟨by simp, by simp, ?_, ?_, ?_⟩
        · intro i hai hlt
          simp only at hlt
          omega
        · refine ⟨0, some GatewayError.ctxCanceled, by simp, by simp [resErr], ?_⟩
          intro resp hresp
          simp only at hresp
          exact absurd hresp (by simp)
        · intro resp hresp
          simp only at hresp
          exact absurd hresp (by simp)
      · rw [if_neg hc]
        by_cases hv : valid = true
        · rw [if_neg (by simp [hv])]
          rcases hup : up a with _ | ⟨s, b⟩
          · -- transport failure: retried
            dsimp only
            obtain ⟨ih1, ih2, ih3, ih4, ih5⟩ := ih (attempt + 1)
              (applyCBEvents now cb (if cfg.cbPresent then doRawAttemptCB Outcome.transportErr else []))
              (a + 1)
              (evs ++ (if cfg.cbPresent then doRawAttemptCB Outcome.transportErr else []))
              (some (GatewayError.providerErr statusBadGateway "failed to send request"))
              (extractStatusCode (some (GatewayError.providerErr statusBadGateway "failed to send request")))
            refine ⟨by omega, by omega, ?_, ih4, ih5⟩
            intro i hai hlt
            by_cases hia : i = a
            · subst hia
              rw [hup]
              rfl
            · exact ih3 i (by omega) hlt
          · dsimp only
            by_cases hr : isRetryable s = true
            · -- retryable status: retried
              rw [if_pos hr]
              obtain ⟨ih1, ih2, ih3, ih4, ih5⟩ := ih (attempt + 1)
                (applyCBEvents now cb (if cfg.cbPresent then doRawAttemptCB (Outcome.reply s b) else []))
                (a + 1)
                (evs ++ (if cfg.cbPresent then doRawAttemptCB (Outcome.reply s b) else []))
                (some (GatewayError.parsedErr s b)) s
              refine ⟨by omega, by omega, ?_, ih4, ih5⟩
              intro i hai hlt
              by_cases hia : i = a
              · subst hia
                rw [hup]
                simp [retryableOutcome, hr]
              · exact ih3 i (by omega) hlt
            · rw [if_neg hr]
              by_cases h200 : s ≠ statusOK
              · -- non-retryable error status: terminal
                rw [if_pos h200]
                refine ⟨by simp, by simp, ?_, ?_, ?_⟩
                · intro i hai hlt
                  simp only at hlt
                  omega
                · refine ⟨s, some (GatewayError.parsedErr s b), by simp, by simp [resErr], ?_⟩
                  intro resp hresp
                  simp only at hresp
                  exact absurd hresp (by simp)
                · intro resp hresp
                  simp only at hresp
                  exact absurd hresp (by simp)
              · -- success: terminal
                rw [if_neg h200]
                push_neg at h200
                refine ⟨by simp, by simp, ?_, ?_, ?_⟩
                · intro i hai hlt
                  simp only at hlt
                  omega
                · refine ⟨s, none, by simp, by simp [resErr], ?_⟩
                  intro resp hresp
                  simp only at hresp
                  cases hresp
                  rfl
                · intro resp hresp
                  simp only at hresp
                  cases hresp
                  exact h200
        · -- buildRequest failure: retried without an upstream attempt
          rw [if_pos (by simp [hv])]
          obtain ⟨ih1, ih2, ih3, ih4, ih5⟩ := ih (attempt + 1)
            (applyCBEvents now cb (if cfg.cbPresent then [CBEvent.failure] else []))
            a
            (evs ++ (if cfg.cbPresent then [CBEvent.failure] else []))
            (some (GatewayError.invalidRequest "invalid request"))
            (extractStatusCode (some (GatewayError.invalidRequest "invalid request")))
          exact ⟨by omega, ih2, ih3, ih4, ih5⟩

/-! ## C2 — retry policy -/

theorem maxAttempts_eq (cfg : ClientConfig) : maxAttempts cfg = cfg.maxRetries + 1 := by
  unfold maxAttempts
  omega

/-- C2: a buffered `DoRaw` call makes at most `MaxRetries + 1` upstream HTTP
attempts, and every attempt that was followed by another one had a
retryable outcome (transport failure or status 429/502/503/504) — so any
other status returns after the current attempt with no further upstream
call; a streaming `DoStream` call makes at most one upstream attempt, and
exactly one when the breaker admits it and the request builds. -/
theorem c2_retry_policy (cfg : ClientConfig) (valid : Bool) (up : Nat → Outcome)
    (cancel : Nat → Bool) (cb : CircuitBreaker) (now : Int) :
    (doRaw cfg valid up cancel cb now).attempts ≤ cfg.maxRetries + 1 ∧
    (∀ i, i + 1 < (doRaw cfg valid up cancel cb now).attempts →
      retryableOutcome (up i) = true) ∧
    (doStream cfg valid up cb now).attempts ≤ 1 ∧
    ((cfg.cbPresent = false ∨ (cb.allow now).1 = true) → valid = true →
      (doStream cfg valid up cb now).attempts = 1) := by
  refine ⟨?_, ?_, ?_, ?_⟩
  · simp only [doRaw]
    by_cases hrej : (cfg.cbPresent && !(if cfg.cbPresent then cb.allow now else (true, cb)).1) = true
    · rw [if_pos hrej]
      simp
    · rw [if_neg hrej]
      dsimp only
      have h := (doRawLoop_spec cfg valid up cancel now (maxAttempts cfg) 0
        (if cfg.cbPresent then cb.allow now else (true, cb)).2 0 [] none 0).1
      have hm := maxAttempts_eq cfg
      omega
  · simp only [doRaw]
    by_cases hrej : (cfg.cbPresent && !(if cfg.cbPresent then cb.allow now else (true, cb)).1) = true
    · rw [if_pos hrej]
      intro i hlt
      simp at hlt
    · rw [if_neg hrej]
      dsimp only
      intro i hlt
      exact (doRawLoop_spec cfg valid up cancel now (maxAttempts cfg) 0
        (if cfg.cbPresent then cb.allow now else (true, cb)).2 0 [] none 0).2.2.1
        i (Nat.zero_le i) hlt
  · simp only [doStream]
    by_cases hrej : (cfg.cbPresent && !(if cfg.cbPresent then cb.allow now else (true, cb)).1) = true
    · rw [if_pos hrej]
      simp
    · rw [if_neg hrej]
      by_cases hv : valid = true
      · rw [if_neg (by simp [hv])]
        rcases hup : up 0 with _ | ⟨s, b⟩
        · simp
        · dsimp only
          by_cases h200 : s ≠ statusOK
          · rw [if_pos h200]
          · rw [if_neg h200]
      · rw [if_pos (by simp [hv])]
        simp
  · intro hadm hv
    have hcond : (cfg.cbPresent && !(if cfg.cbPresent then cb.allow now else (true, cb)).1) = false := by
      rcases hadm with h | h
      · simp [h]
      · by_cases hp : cfg.cbPresent = true
        · simp [hp, h]
        · simp [hp]
    simp only [doStream]
    rw [if_neg (by simp [hcond])]
    rw [if_neg (by simp [hv])]
    rcases hup : up 0 with _ | ⟨s, b⟩
    · rfl
    · dsimp only
      by_cases h200 : s ≠ statusOK
      · rw [if_pos h200]
      · rw [if_neg h200]

theorem c2_retry_policy_witness :
    (doRaw ⟨2, false⟩ true (fun _ => Outcome.reply 429 "x") (fun _ => false)
      (newCircuitBreaker 5 2 30) 0).attempts ≤ 3 ∧
    (doStream ⟨2, false⟩ true (fun _ => Outcome.reply 200 "ok")
      (newCircuitBreaker 5 2 30) 0).attempts = 1 := by
  constructor
  · exact (c2_retry_policy ⟨2, false⟩ true (fun _ => Outcome.reply 429 "x")
      (fun _ => false) (newCircuitBreaker 5 2 30) 0).1
  · exact (c2_retry_policy ⟨2, false⟩ true (fun _ => Outcome.reply 200 "ok")
      (fun _ => false) (newCircuitBreaker 5 2 30) 0).2.2.2 (Or.inl rfl) rfl

/-! ## C5 — hooks fire exactly once per logical request -/

/-- C5: on every path of `DoRaw` and `DoStream` — circuit-breaker
rejection, build failure, context cancellation during backoff, retry
exhaustion, non-retryable status, and success — the hook trace is exactly
one `OnRequestStart` followed by one `OnRequestEnd`, regardless of the
number of internal attempts, and the end hook carries the terminal error
of the logical request (and the terminal status on success). -/
theorem c5_hooks_once (cfg : ClientConfig) (valid : Bool) (up : Nat → Outcome)
    (cancel : Nat → Bool) (cb : CircuitBreaker) (now : Int) :
    (∃ s, (doRaw cfg valid up cancel cb now).hooks =
        [HookEvent.onStart false,
         HookEvent.onEnd s (resErr (doRaw cfg valid up cancel cb now).res) false] ∧
      ∀ resp, (doRaw cfg valid up cancel cb now).res = .ok resp → s = resp.statusCode) ∧
    (∃ s, (doStream cfg valid up cb now).hooks =
        [HookEvent.onStart true,
         HookEvent.onEnd s (resErr (doStream cfg valid up cb now).res) true] ∧
      ∀ resp, (doStream cfg valid up cb now).res = .ok resp → s = resp.statusCode) := by
  constructor
  · simp only [doRaw]
    by_cases hrej : (cfg.cbPresent && !(if cfg.cbPresent then cb.allow now else (true, cb)).1) = true
    · rw [if_pos hrej]
      refine ⟨statusServiceUnavailable, by simp [resErr], ?_⟩
      intro resp hresp
      exact absurd hresp (by simp)
    · rw [if_neg hrej]
      dsimp only
      obtain ⟨s, e, hends, herr, hok⟩ := (doRawLoop_spec cfg valid up cancel now
        (maxAttempts cfg) 0 (if cfg.cbPresent then cb.allow now else (true, cb)).2 0 [] none 0).2.2.2.1
      refine ⟨s, ?_, hok⟩
      rw [hends, herr]
      rfl
  · simp only [doStream]
    by_cases hrej : (cfg.cbPresent && !(if cfg.cbPresent then cb.allow now else (true, cb)).1) = true
    · rw [if_pos hrej]
      refine ⟨statusServiceUnavailable, by simp [resErr], ?_⟩
      intro resp hresp
      exact absurd hresp (by simp)
    · rw [if_neg hrej]
      by_cases hv : valid = true
      · rw [if_neg (by simp [hv])]
        rcases hup : up 0 with _ | ⟨s, b⟩
        · refine ⟨extractStatusCode (some (GatewayError.providerErr statusBadGateway
            "failed to send request")), by simp [resErr], ?_⟩
          intro resp hresp
          exact absurd hresp (by simp)
        · dsimp only
          by_cases h200 : s ≠ statusOK
          · rw [if_pos h200]
            refine ⟨s, by simp [resErr], ?_⟩
            intro resp hresp
            exact absurd hresp (by simp)
          · rw [if_neg h200]
            refine ⟨s, by simp [resErr], ?_⟩
            intro resp hresp
            cases hresp
            rfl
      · rw [if_pos (by simp [hv])]
        refine ⟨extractStatusCode (some (GatewayError.invalidRequest "invalid request")),
          by simp [resErr], ?_⟩
        intro resp hresp
        exact absurd hresp (by simp)

theorem c5_hooks_once_witness :
    (doRaw ⟨2, false⟩ true (fun _ => Outcome.reply 200 "ok") (fun _ => false)
      (newCircuitBreaker 5 2 30) 0).hooks =
      [HookEvent.onStart false, HookEvent.onEnd 200 none false] := by
  obtain ⟨s, hs, hok⟩ := (c5_hooks_once ⟨2, false⟩ true (fun _ => Outcome.reply 200 "ok")
    (fun _ => false) (newCircuitBreaker 5 2 30) 0).1
  have hres : (doRaw ⟨2, false⟩ true (fun _ => Outcome.reply 200 "ok") (fun _ => false)
      (newCircuitBreaker 5 2 30) 0).res = .ok ⟨200, "ok"⟩ := by rfl
  have hs200 : s = 200 := hok ⟨200, "ok"⟩ hres
  rw [hs, hs200, hres]
  simp [resErr]

/-! ## C10 — only status 200 is success -/

/-- C10: `DoRaw` (and hence `Do`) returns a response to the caller only
when the final upstream status is 200; any other final status — including
2xx statuses such as 201 or 204 — surfaces as a gateway error with a nil
response. -/
theorem c10_status_200_only (cfg : ClientConfig) (valid : Bool) (up : Nat → Outcome)
    (cancel : Nat → Bool) (cb : CircuitBreaker) (now : Int) (decodeOk : String → Bool) :
    (∀ resp, (doRaw cfg valid up cancel cb now).res = .ok resp → resp.statusCode = 200) ∧
    (clientDo cfg valid up cancel cb now decodeOk = none →
      ∃ resp, (doRaw cfg valid up cancel cb now).res = .ok resp ∧ resp.statusCode = 200) := by
  have hmain : ∀ resp, (doRaw cfg valid up cancel cb now).res = .ok resp →
      resp.statusCode = 200 := by
    simp only [doRaw]
    by_cases hrej : (cfg.cbPresent && !(if cfg.cbPresent then cb.allow now else (true, cb)).1) = true
    · rw [if_pos hrej]
      intro resp hresp
      exact absurd hresp (by simp)
    · rw [if_neg hrej]
      dsimp only
      exact (doRawLoop_spec cfg valid up cancel now (maxAttempts cfg) 0
        (if cfg.cbPresent then cb.allow now else (true, cb)).2 0 [] none 0).2.2.2.2
  refine ⟨hmain, ?_⟩
  intro hdo
  unfold clientDo at hdo
  cases hres : (doRaw cfg valid up cancel cb now).res with
  | error e =>
      rw [hres] at hdo
      exact absurd hdo (by simp)
  | ok resp =>
      exact ⟨resp, rfl, hmain resp hres⟩

theorem c10_status_200_only_witness :
    (doRaw ⟨1, false⟩ true (fun _ => Outcome.reply 200 "b") (fun _ => false)
      (newCircuitBreaker 5 2 30) 0).res = Except.ok ⟨200, "b"⟩ ∧
    (Response.mk 200 "b").statusCode = 200 := by
  refine ⟨by rfl, ?_⟩
  exact (c10_status_200_only ⟨1, false⟩ true (fun _ => Outcome.reply 200 "b")
    (fun _ => false) (newCircuitBreaker 5 2 30) 0 (fun _ => true)).1 ⟨200, "b"⟩ (by rfl)

/-! ## Stream-converter run lemmas -/

theorem aRun_closed (n : Nat) (st : AConvState) (up : List ARead)
    (h : st.closed = true) :
    (aRun n st up).2.1 = st ∧ (aRun n st up).2.2 = up := by
  induction n with
  | zero => exact ⟨rfl, rfl⟩
  | succ n ih =>
      simp only [aRun, aRead, h, if_pos]
      exact ih

theorem aRun_characterization (ls : List ALine) :
    ∀ (st : AConvState) (fuel : Nat), st.closed = false → st.buffer = [] →
      st.sentDone = false → ls.length + 2 ≤ fuel →
      (aRun fuel st (ls.map ARead.lineRead ++ [ARead.eofRead])).2.1 =
        { buffer := [], emitted := st.emitted ++ ls.filterMap aLineRec ++ [Rec.done],
          closed := true, sentDone := true } := by
  induction ls with
  | nil =>
      intro st fuel hcl hb hsd hfuel
      obtain ⟨k, rfl⟩ : ∃ k, fuel = k + 2 := ⟨fuel - 2, by omega⟩
      have h1 : aRead st [ARead.eofRead] =
          (ReadOut.recsOut [Rec.done],
            { st with sentDone := true, emitted := st.emitted ++ [Rec.done] }, []) := by
        simp only [aRead]
        rw [if_neg (by simp [hcl]), if_neg (by simp [hb])]
        simp only [aReadLoop, aAtEOF]
        rw [if_neg (by simp [hsd])]
      have h2 : aRead { st with sentDone := true, emitted := st.emitted ++ [Rec.done] } [] =
          (ReadOut.eofOut,
            { st with sentDone := true, emitted := st.emitted ++ [Rec.done], closed := true },
            []) := by
        simp only [aRead]
        rw [if_neg (by simp [hcl]), if_neg (by simp [hb])]
        simp only [aReadLoop, aAtEOF]
        rw [if_pos (by simp)]
      simp only [List.map_nil, List.nil_append, aRun]
      rw [h1]
      simp only
      rw [h2]
      simp only
      rw [(aRun_closed k _ [] rfl).1]
      simp [hb]
  | cons l rest ih =>
      intro st fuel hcl hb hsd hfuel
      obtain ⟨m, rfl⟩ : ∃ m, fuel = m + 1 := ⟨fuel - 1, by omega⟩
      cases hrec : aLineRec l with
      | none =>
          have hstep :
              aRead st ((l :: rest).map ARead.lineRead ++ [ARead.eofRead]) =
              aRead st (rest.map ARead.lineRead ++ [ARead.eofRead]) := by
            simp only [List.map_cons, List.cons_append, aRead]
            rw [if_neg (by simp [hcl]), if_neg (by simp [hb]),
              if_neg (by simp [hcl]), if_neg (by simp [hb])]
            simp only [aReadLoop, hrec]
          have hrun :
              aRun (m + 1) st ((l :: rest).map ARead.lineRead ++ [ARead.eofRead]) =
              aRun (m + 1) st (rest.map ARead.lineRead ++ [ARead.eofRead]) := by
            simp only [aRun]
            rw [hstep]
          rw [hrun, ih st (m + 1) hcl hb hsd (by simp at hfuel ⊢; omega)]
          simp [List.filterMap_cons, hrec]
      | some r =>
          have hstep :
              aRead st ((l :: rest).map ARead.lineRead ++ [ARead.eofRead]) =
              (ReadOut.recsOut (st.buffer ++ [r]),
                { st with buffer := [], emitted := st.emitted ++ [r] },
                rest.map ARead.lineRead ++ [ARead.eofRead]) := by
            simp only [List.map_cons, List.cons_append, aRead]
            rw [if_neg (by simp [hcl]), if_neg (by simp [hb])]
            simp only [aReadLoop, hrec]
          have ih2 := ih { st with buffer := [], emitted := st.emitted ++ [r] } m
            hcl rfl hsd (by simp at hfuel ⊢; omega)
          simp only [aRun]
          rw [hstep]
          simp only
          rw [ih2]
          simp [List.filterMap_cons, hrec]

theorem oRun_closed (n : Nat) (st : OConvState) (up : List OChunk)
    (h : st.closed = true) :
    (oRun n st up).2.1 = st ∧ (oRun n st up).2.2 = up := by
  induction n with
  | zero => exact ⟨rfl, rfl⟩
  | succ n ih =>
      simp only [oRun, oRead, h, if_pos]
      exact ih

theorem oProcessLines_spec (ls : List OLine) :
    ∀ st : OConvState, oProcessLines st ls =
      { st with buffer := st.buffer ++ (oEmitLines st.sentDone ls).2,
                emitted := st.emitted ++ (oEmitLines st.sentDone ls).2,
                sentDone := (oEmitLines st.sentDone ls).1 } := by
  induction ls with
  | nil =>
      intro st
      simp [oProcessLines, oEmitLines]
  | cons l rest ih =>
      intro st
      have hcons : oProcessLines st (l :: rest) = oProcessLines (oProcessLine st l) rest := rfl
      rw [hcons, ih]
      cases l with
      | blankLine => simp [oProcessLine, oEmitLines, oEmitStep]
      | otherLine => simp [oProcessLine, oEmitLines, oEmitStep]
      | badJson => simp [oProcessLine, oEmitLines, oEmitStep]
      | doneLine =>
          by_cases hsd : st.sentDone = true
          · simp [oProcessLine, oEmitLines, oEmitStep, hsd]
          · have hsd' : st.sentDone = false := by simpa using hsd
            simp [oProcessLine, oEmitLines, oEmitStep, hsd']
      | chunkLine c =>
          cases c with
          | none => simp [oProcessLine, oEmitLines, oEmitStep]
          | some s =>
              by_cases hs : s = ""
              · simp [oProcessLine, oEmitLines, oEmitStep, hs]
              · simp [oProcessLine, oEmitLines, oEmitStep, hs]

theorem oEmitLines_append (l1 l2 : List OLine) :
    ∀ sd : Bool, oEmitLines sd (l1 ++ l2) =
      ((oEmitLines (oEmitLines sd l1).1 l2).1,
       (oEmitLines sd l1).2 ++ (oEmitLines (oEmitLines sd l1).1 l2).2) := by
  induction l1 with
  | nil => intro sd; simp [oEmitLines]
  | cons l rest ih =>
      intro sd
      simp only [List.cons_append, oEmitLines, List.append_eq]
      rw [ih (oEmitStep sd l).1]
      simp [List.append_assoc]

theorem oRun_characterization (chs : List (List OLine)) :
    ∀ (st : OConvState) (fuel : Nat), st.closed = false → st.buffer = [] →
      st.sentCreate = true → chs.length + 2 ≤ fuel →
      (oRun fuel st (chs.map (fun c => OChunk.mk c UpErr.noErr) ++ [OChunk.mk [] UpErr.eofErr])).2.1 =
        { buffer := [], closed := true, sentCreate := true, sentDone := true,
          emitted := st.emitted ++ (oEmitLines st.sentDone chs.join).2 ++
            (if (oEmitLines st.sentDone chs.join).1 = true then [] else [Rec.done]) } := by
  induction chs with
  | nil =>
      intro st fuel hcl hb hsc hfuel
      obtain ⟨k, rfl⟩ : ∃ k, fuel = k + 2 := ⟨fuel - 2, by omega⟩
      by_cases hsd : st.sentDone = true
      · have h1 : oRead st [OChunk.mk [] UpErr.eofErr] =
            (ReadOut.eofOut, { st with closed := true }, []) := by
          simp [oRead, oProcessLines, oHandleAfter, hcl, hb, hsc, hsd]
        have h1close : oRead { st with closed := true } ([] : List OChunk) =
            (ReadOut.eofOut, { st with closed := true }, []) := by
          simp [oRead]
        simp only [List.map_nil, List.nil_append, oRun]
        rw [h1]
        simp only
        rw [h1close]
        simp only
        rw [(oRun_closed k { st with closed := true } [] rfl).1]
        simp [hb, hsd, hsc, oEmitLines]
      · have hsd' : st.sentDone = false := by simpa using hsd
        set st1 : OConvState := { st with sentDone := true, emitted := st.emitted ++ [Rec.done], buffer := [] } with hst1
        have h1 : oRead st [OChunk.mk [] UpErr.eofErr] =
            (ReadOut.recsOut [Rec.done], st1, []) := by
          simp [oRead, oProcessLines, oHandleAfter, hcl, hb, hsc, hsd', hst1]
        have h2 : oRead st1 ([] : List OChunk) =
            (ReadOut.eofOut, { st1 with closed := true }, []) := by
          simp [oRead, oProcessLines, oHandleAfter, hcl, hsc, hst1]
        simp only [List.map_nil, List.nil_append, oRun]
        rw [h1]
        simp only
        rw [h2]
        simp only
        rw [(oRun_closed k { st1 with closed := true } [] rfl).1]
        simp [hst1, hb, hsd', hsc, oEmitLines]
  | cons ch chs' ih =>
      intro st fuel hcl hb hsc hfuel
      obtain ⟨m, rfl⟩ : ∃ m, fuel = m + 1 := ⟨fuel - 1, by omega⟩
      have hproc := oProcessLines_spec ch st
      set st1 : OConvState := { st with buffer := [], emitted := st.emitted ++ (oEmitLines st.sentDone ch).2, sentDone := (oEmitLines st.sentDone ch).1 } with hst1
      have hstep1 : (oRead st ((ch :: chs').map (fun c => OChunk.mk c UpErr.noErr) ++ [OChunk.mk [] UpErr.eofErr])).2.1 = st1 := by
        simp only [List.map_cons, List.cons_append, oRead]
        rw [if_neg (by simp [hcl]), if_neg (by simp [hb]), if_neg (by simp [hsc])]
        rw [hproc]
        simp only [oHandleAfter]
        by_cases hE2 : (oEmitLines st.sentDone ch).2 = []
        · rw [if_neg (by simp [hb, hE2])]
          simp [hst1, hb, hE2]
        · rw [if_pos (by simp [hb, hE2])]
      have hstep2 : (oRead st ((ch :: chs').map (fun c => OChunk.mk c UpErr.noErr) ++ [OChunk.mk [] UpErr.eofErr])).2.2 =
          chs'.map (fun c => OChunk.mk c UpErr.noErr) ++ [OChunk.mk [] UpErr.eofErr] := by
        simp only [List.map_cons, List.cons_append, oRead]
        rw [if_neg (by simp [hcl]), if_neg (by simp [hb]), if_neg (by simp [hsc])]
        rw [hproc]
        simp only [oHandleAfter]
        by_cases hE2 : (oEmitLines st.sentDone ch).2 = []
        · rw [if_neg (by simp [hb, hE2])]
        · rw [if_pos (by simp [hb, hE2])]
      have hnext := ih st1 m (by simp [hst1, hcl]) (by simp [hst1]) (by simp [hst1, hsc])
        (by simp at hfuel ⊢; omega)
      simp only [oRun]
      rw [hstep1, hstep2, hnext]
      simp only [hst1]
      simp [oEmitLines_append, List.append_assoc, List.join]

theorem oEmitLines_count_created (ls : List OLine) :
    ∀ sd, ((oEmitLines sd ls).2).count Rec.created = 0 := by
  induction ls with
  | nil => intro sd; simp [oEmitLines]
  | cons l rest ih =>
      intro sd
      simp only [oEmitLines, List.count_append]
      rw [ih]
      cases l with
      | doneLine => cases sd <;> simp [oEmitStep]
      | chunkLine c =>
          cases c with
          | none => simp [oEmitStep]
          | some s =>
              by_cases hs : s = "" <;> simp [oEmitStep, hs]
      | blankLine => simp [oEmitStep]
      | otherLine => simp [oEmitStep]
      | badJson => simp [oEmitStep]

theorem oEmitLines_flag_mono (ls : List OLine) :
    (oEmitLines true ls).1 = true := by
  induction ls with
  | nil => simp [oEmitLines]
  | cons l rest ih =>
      cases l with
      | doneLine => simp [oEmitLines, oEmitStep, ih]
      | blankLine => simp [oEmitLines, oEmitStep, ih]
      | otherLine => simp [oEmitLines, oEmitStep, ih]
      | badJson => simp [oEmitLines, oEmitStep, ih]
      | chunkLine c =>
          cases c with
          | none => simp [oEmitLines, oEmitStep, ih]
          | some s => simp [oEmitLines, oEmitStep, ih]

theorem oEmitLines_count_done (ls : List OLine) :
    ∀ sd, ((oEmitLines sd ls).2).count Rec.done =
      (if sd = true then 0 else (if (oEmitLines sd ls).1 = true then 1 else 0)) := by
  induction ls with
  | nil => intro sd; cases sd <;> simp [oEmitLines]
  | cons l rest ih =>
      intro sd
      simp only [oEmitLines, List.count_append]
      rw [ih]
      cases l with
      | doneLine =>
          cases sd
          · simp [oEmitStep, oEmitLines_flag_mono rest]
          · simp [oEmitStep]
      | chunkLine c =>
          cases c with
          | none => simp [oEmitStep]
          | some s =>
              by_cases hs : s = "" <;> simp [oEmitStep, hs]
      | blankLine => simp [oEmitStep]
      | otherLine => simp [oEmitStep]
      | badJson => simp [oEmitStep]

theorem aLineRec_ne_done (l : ALine) : aLineRec l ≠ some Rec.done := by
  cases l with
  | dataEvent e =>
      simp only [aLineRec, aConvertEvent]
      by_cases h1 : (e.etype == "message_start") = true
      · simp [h1]
      · rw [if_neg h1]
        by_cases h2 : (e.etype == "content_block_delta") = true
        · rw [if_pos h2]
          cases hd : e.deltaText with
          | none => simp
          | some s => by_cases hs : s = "" <;> simp [hs]
        · rw [if_neg h2]
          simp
  | blankLine => simp [aLineRec]
  | eventTagLine => simp [aLineRec]
  | otherLine => simp [aLineRec]
  | badJson => simp [aLineRec]

theorem filterMap_aLineRec_count_done (ls : List ALine) :
    (ls.filterMap aLineRec).count Rec.done = 0 := by
  induction ls with
  | nil => simp
  | cons l rest ih =>
      cases hrec : aLineRec l with
      | none => simp [List.filterMap_cons, hrec, ih]
      | some r =>
          have hne : r ≠ Rec.done := fun h => aLineRec_ne_done l (h ▸ hrec)
          simp [List.filterMap_cons, hrec, List.count_cons, ih, hne]

theorem filterMap_aLineRec_count_created (ls : List ALine) :
    (ls.filterMap aLineRec).count Rec.created =
      ls.countP (fun l => aLineRec l == some Rec.created) := by
  induction ls with
  | nil => simp
  | cons l rest ih =>
      cases hrec : aLineRec l with
      | none => simp [List.filterMap_cons, hrec, List.countP_cons, ih]
      | some r =>
          by_cases hr : r = Rec.created
          · subst hr
            simp [List.filterMap_cons, hrec, List.countP_cons, List.count_cons, ih]
          · simp [List.filterMap_cons, hrec, List.countP_cons, List.count_cons, ih, hr]

/-! ## C1 — translator event protocol -/

/-- C1 counterexample.  OpenAI-compatible converter: an upstream chunk
whose lines are `data: [DONE]` followed by a content delta yields the
emission trace `[created, done, delta X]` — the delta record is forwarded
to the caller after `response.done` and after the upstream `[DONE]` has
been processed, contradicting both the bracketing and the no-forwarding
clauses.  Anthropic responses converter: an upstream that ends without a
`message_start` event yields a completed run that emitted no
`response.created` at all, contradicting the exactly-once clause. -/
theorem c1_counterexample :
    (oRun 3 oInit [OChunk.mk [OLine.doneLine, OLine.chunkLine (some "X")] UpErr.eofErr]).2.1.emitted
        = [Rec.created, Rec.done, Rec.outputTextDelta "X"] ∧
    (oRun 3 oInit [OChunk.mk [OLine.doneLine, OLine.chunkLine (some "X")] UpErr.eofErr]).2.1.closed
        = true ∧
    (aRun 2 aInit [ARead.eofRead]).2.1.closed = true ∧
    (aRun 2 aInit [ARead.eofRead]).2.1.emitted.count Rec.created = 0 ∧
    (aRun 2 aInit [ARead.eofRead]).2.1.emitted.count Rec.done = 1 := by
  refine ⟨?_, ?_, ?_, ?_, ?_⟩ <;> rfl

/-- C1 (amended): over a converter run whose upstream terminates with EOF:
the OpenAI-compatible converter emits `response.created` exactly once, as
the very first record, and `response.done` exactly once — but content
deltas arriving after an upstream `[DONE]` are still forwarded after
`response.done` (see the counterexample), so `done` does not terminate the
record sequence; the anthropic responses converter emits
`response.created` once per upstream `message_start` event (zero or more
times, not exactly once), emits `response.done` exactly once, and that
`done` is the final record emitted. -/
theorem c1_amended_translator_events :
    (∀ (chs : List (List OLine)) (fuel : Nat), chs.length + 3 ≤ fuel →
      (oRun fuel oInit (chs.map (fun c => OChunk.mk c UpErr.noErr) ++ [OChunk.mk [] UpErr.eofErr])).2.1.emitted.head?
          = some Rec.created ∧
      (oRun fuel oInit (chs.map (fun c => OChunk.mk c UpErr.noErr) ++ [OChunk.mk [] UpErr.eofErr])).2.1.emitted.count Rec.created
          = 1 ∧
      (oRun fuel oInit (chs.map (fun c => OChunk.mk c UpErr.noErr) ++ [OChunk.mk [] UpErr.eofErr])).2.1.emitted.count Rec.done
          = 1 ∧
      (oRun fuel oInit (chs.map (fun c => OChunk.mk c UpErr.noErr) ++ [OChunk.mk [] UpErr.eofErr])).2.1.closed
          = true) ∧
    (∀ (ls : List ALine) (fuel : Nat), ls.length + 2 ≤ fuel →
      (aRun fuel aInit (ls.map ARead.lineRead ++ [ARead.eofRead])).2.1.emitted.count Rec.created
          = ls.countP (fun l => aLineRec l == some Rec.created) ∧
      (aRun fuel aInit (ls.map ARead.lineRead ++ [ARead.eofRead])).2.1.emitted.count Rec.done
          = 1 ∧
      (aRun fuel aInit (ls.map ARead.lineRead ++ [ARead.eofRead])).2.1.emitted.getLast?
          = some Rec.done ∧
      (aRun fuel aInit (ls.map ARead.lineRead ++ [ARead.eofRead])).2.1.closed = true) := by
  constructor
  · intro chs fuel hfuel
    obtain ⟨f, rfl⟩ : ∃ f, fuel = f + 1 := ⟨fuel - 1, by omega⟩
    have hfirst : oRead oInit (chs.map (fun c => OChunk.mk c UpErr.noErr) ++ [OChunk.mk [] UpErr.eofErr]) =
        (ReadOut.recsOut [Rec.created],
          { buffer := [], emitted := [Rec.created], closed := false, sentCreate := true,
            sentDone := false },
          chs.map (fun c => OChunk.mk c UpErr.noErr) ++ [OChunk.mk [] UpErr.eofErr]) := by
      simp [oRead, oInit]
    have hchar := oRun_characterization chs
      { buffer := [], emitted := [Rec.created], closed := false, sentCreate := true,
        sentDone := false } f rfl rfl rfl (by omega)
    simp only [oRun]
    rw [hfirst]
    simp only
    rw [hchar]
    refine ⟨?_, ?_, ?_, by trivial⟩
    · simp
    · simp only [List.count_append, List.singleton_append, List.count_cons]
      rw [oEmitLines_count_created]
      by_cases hflag : (oEmitLines false chs.join).1 = true <;>
        simp [hflag, List.count_nil, List.count_cons]
    · simp only [List.count_append, List.singleton_append, List.count_cons]
      rw [oEmitLines_count_done]
      by_cases hflag : (oEmitLines false chs.join).1 = true <;>
        simp [hflag, List.count_nil, List.count_cons]
  · intro ls fuel hfuel
    have hchar := aRun_characterization ls aInit fuel rfl rfl rfl hfuel
    rw [hchar]
    refine ⟨?_, ?_, ?_, by trivial⟩
    · simp only [aInit, List.nil_append, List.count_append]
      rw [filterMap_aLineRec_count_created]
      simp
    · simp only [aInit, List.nil_append, List.count_append]
      rw [filterMap_aLineRec_count_done]
      simp
    · simp only [aInit, List.nil_append]
      exact List.getLast?_concat _

theorem c1_amended_translator_events_witness :
    (oRun 3 oInit [OChunk.mk [] UpErr.eofErr]).2.1.emitted.count Rec.done = 1 ∧
    (aRun 3 aInit [ARead.lineRead (ALine.dataEvent ⟨"message_start", none⟩),
        ARead.eofRead]).2.1.emitted.count Rec.created
      = ([ALine.dataEvent ⟨"message_start", none⟩] : List ALine).countP
          (fun l => aLineRec l == some Rec.created) := by
  constructor
  · exact (c1_amended_translator_events.1 [] 3 (by norm_num)).2.2.1
  · exact (c1_amended_translator_events.2 [ALine.dataEvent ⟨"message_start", none⟩] 3
      (by norm_num)).1

/-! ## C6 — converter error handling -/

/-- C6 counterexample: after a non-EOF upstream read error (returned to the
caller as-is), the anthropic responses converter is NOT in a closed state —
`closed` is still false and the next `Read` returns buffered upstream data
(a delta record), not EOF (anthropic.go 638: `return 0, err` without
setting `sc.closed`; same shape at responses_converter.go 188). -/
theorem c6_counterexample :
    (aRead aInit [ARead.errRead 7,
        ARead.lineRead (ALine.dataEvent ⟨"content_block_delta", some "Hi"⟩),
        ARead.eofRead]).1 = ReadOut.errOut 7 ∧
    (aRead aInit [ARead.errRead 7,
        ARead.lineRead (ALine.dataEvent ⟨"content_block_delta", some "Hi"⟩),
        ARead.eofRead]).2.1.closed = false ∧
    (aRead (aRead aInit [ARead.errRead 7,
          ARead.lineRead (ALine.dataEvent ⟨"content_block_delta", some "Hi"⟩),
          ARead.eofRead]).2.1
        (aRead aInit [ARead.errRead 7,
          ARead.lineRead (ALine.dataEvent ⟨"content_block_delta", some "Hi"⟩),
          ARead.eofRead]).2.2).1 = ReadOut.recsOut [Rec.outputTextDelta "Hi"] ∧
    (aRead (aRead aInit [ARead.errRead 7,
          ARead.lineRead (ALine.dataEvent ⟨"content_block_delta", some "Hi"⟩),
          ARead.eofRead]).2.1
        (aRead aInit [ARead.errRead 7,
          ARead.lineRead (ALine.dataEvent ⟨"content_block_delta", some "Hi"⟩),
          ARead.eofRead]).2.2).1 ≠ ReadOut.eofOut := by
  refine ⟨rfl, rfl, rfl, by decide⟩

theorem aReadLoop_errOut (st : AConvState) :
    ∀ (up : List ARead) (c : Nat),
      (aReadLoop st up).1 = ReadOut.errOut c → ARead.errRead c ∈ up := by
  intro up
  induction up with
  | nil =>
      intro c h
      simp only [aReadLoop, aAtEOF] at h
      by_cases hsd : st.sentDone = true
      · rw [if_pos hsd] at h
        exact absurd h (by simp)
      · rw [if_neg hsd] at h
        exact absurd h (by simp)
  | cons r rest ih =>
      intro c h
      cases r with
      | eofRead =>
          simp only [aReadLoop, aAtEOF] at h
          by_cases hsd : st.sentDone = true
          · rw [if_pos hsd] at h
            exact absurd h (by simp)
          · rw [if_neg hsd] at h
            exact absurd h (by simp)
      | errRead c' =>
          simp only [aReadLoop] at h
          have : c' = c := by
            cases h
            rfl
          subst this
          exact List.mem_cons_self _ _
      | lineRead l =>
          simp only [aReadLoop] at h
          cases hrec : aLineRec l with
          | none =>
              rw [hrec] at h
              exact List.mem_cons_of_mem _ (ih c h)
          | some r' =>
              rw [hrec] at h
              exact absurd h (by simp)


/-- C6 (amended): a `data:` record whose JSON payload fails to parse is
skipped with no effect on the converter, and translator errors never
originate internally — an error result always is an upstream read error,
returned to the caller with its code unchanged; BUT a non-EOF upstream
error does not put the translator into a closed state: `closed` is
unchanged (false), and subsequent `Read` calls keep consuming the
upstream (the claimed every-subsequent-read-returns-EOF behavior does not
hold; see the counterexample). -/
theorem c6_amended_error_paths :
    (∀ (st : OConvState) (a b : List OLine) (e : UpErr) (rest : List OChunk),
      st.closed = false → st.buffer = [] → st.sentCreate = true →
      oRead st (OChunk.mk (a ++ OLine.badJson :: b) e :: rest) =
        oRead st (OChunk.mk (a ++ b) e :: rest)) ∧
    (∀ (st : AConvState) (rest : List ARead),
      st.closed = false → st.buffer = [] →
      aRead st (ARead.lineRead ALine.badJson :: rest) = aRead st rest) ∧
    (∀ (st : OConvState) (ls : List OLine) (c : Nat) (rest : List OChunk),
      st.closed = false → st.buffer = [] → st.sentCreate = true →
      (oRead st (OChunk.mk ls (UpErr.readErr c) :: rest)).1 = ReadOut.errOut c ∧
      (oRead st (OChunk.mk ls (UpErr.readErr c) :: rest)).2.1.closed = false ∧
      (oRead st (OChunk.mk ls (UpErr.readErr c) :: rest)).2.2 = rest) ∧
    (∀ (st : AConvState) (c : Nat) (rest : List ARead),
      st.closed = false → st.buffer = [] →
      aRead st (ARead.errRead c :: rest) = (ReadOut.errOut c, st, rest)) ∧
    (∀ (st : OConvState) (up : List OChunk) (c : Nat),
      (oRead st up).1 = ReadOut.errOut c →
      ∃ ls rest, up = OChunk.mk ls (UpErr.readErr c) :: rest) ∧
    (∀ (st : AConvState) (up : List ARead) (c : Nat),
      st.closed = false → st.buffer = [] →
      (aRead st up).1 = ReadOut.errOut c → ARead.errRead c ∈ up) := by
  refine ⟨?_, ?_, ?_, ?_, ?_, ?_⟩
  · intro st a b e rest hcl hb hsc
    have hpl : oProcessLines st (a ++ OLine.badJson :: b) = oProcessLines st (a ++ b) := by
      simp only [oProcessLines, List.foldl_append, List.foldl_cons]
      rfl
    simp only [oRead]
    rw [if_neg (by simp [hcl]), if_neg (by simp [hb]), if_neg (by simp [hsc]),
      if_neg (by simp [hcl]), if_neg (by simp [hb]), if_neg (by simp [hsc])]
    rw [hpl]
  · intro st rest hcl hb
    simp only [aRead]
    rw [if_neg (by simp [hcl]), if_neg (by simp [hb]),
      if_neg (by simp [hcl]), if_neg (by simp [hb])]
    simp only [aReadLoop, aLineRec]
  · intro st ls c rest hcl hb hsc
    have hclp : (oProcessLines st ls).closed = false := by
      rw [oProcessLines_spec]
      exact hcl
    simp only [oRead]
    rw [if_neg (by simp [hcl]), if_neg (by simp [hb]), if_neg (by simp [hsc])]
    exact ⟨rfl, hclp, rfl⟩
  · intro st c rest hcl hb
    simp only [aRead]
    rw [if_neg (by simp [hcl]), if_neg (by simp [hb])]
    rfl
  · intro st up c h
    simp only [oRead] at h
    by_cases hcl : st.closed = true
    · rw [if_pos hcl] at h
      exact absurd h (by simp)
    · rw [if_neg hcl] at h
      by_cases hbuf : st.buffer ≠ []
      · rw [if_pos hbuf] at h
        exact absurd h (by simp)
      · rw [if_neg hbuf] at h
        by_cases hsc : (!st.sentCreate) = true
        · rw [if_pos hsc] at h
          exact absurd h (by simp)
        · rw [if_neg hsc] at h
          cases up with
          | nil =>
              simp only [oHandleAfter] at h
              split at h <;> try split at h
              all_goals exact absurd h (by simp)
          | cons ch rest =>
              cases ch with
              | mk ls e =>
                  cases e with
                  | noErr =>
                      simp only [oHandleAfter] at h
                      split at h
                      all_goals exact absurd h (by simp)
                  | eofErr =>
                      simp only [oHandleAfter] at h
                      split at h <;> try split at h
                      all_goals exact absurd h (by simp)
                  | readErr c' =>
                      simp only [oHandleAfter] at h
                      have hc : c' = c := by
                        cases h
                        rfl
                      subst hc
                      exact ⟨ls, rest, rfl⟩
  · intro st up c hcl hb h
    simp only [aRead] at h
    rw [if_neg (by simp [hcl]), if_neg (by simp [hb])] at h
    exact aReadLoop_errOut st up c h

theorem c6_amended_error_paths_witness :
    aRead aInit [ARead.lineRead ALine.badJson, ARead.eofRead] =
      aRead aInit [ARead.eofRead] ∧
    aRead aInit [ARead.errRead 9] = (ReadOut.errOut 9, aInit, []) ∧
    (ARead.errRead 9 ∈ ([ARead.errRead 9] : List ARead)) := by
  refine ⟨?_, ?_, ?_⟩
  · exact c6_amended_error_paths.2.1 aInit [ARead.eofRead] rfl rfl
  · exact c6_amended_error_paths.2.2.2.1 aInit 9 [] rfl rfl
  · exact c6_amended_error_paths.2.2.2.2.2 aInit [ARead.errRead 9] 9 rfl rfl
      (by exact congrArg Prod.fst (c6_amended_error_paths.2.2.2.1 aInit 9 [] rfl rfl))
